/-
Verification of the CodeCompass path-safety gate, scan engine and file
accessor against their natural-language specification.

The Python source is shallowly embedded:
  * Python `str` values become `List Char` (`RawPath` for raw path strings);
  * resolved `pathlib.Path` objects become `CPath := List (List Char)`,
    the list of path segments of the canonical absolute path;
  * the filesystem (resolution, existence, directory test, cwd) is an
    abstract `FSModel` parameter, since it is external to the code;
  * `bytes` become `List Nat`, text codecs become an abstract `Encoding`
    (decode function plus per-character encoded byte width), and chardet
    becomes an abstract `Chardet` detector;
  * the `re` module's compiled patterns become an abstract `RegexEngine`
    (compilation may fail, modelling `re.error`), except for the six fixed
    TODO-taxonomy patterns `MARKER[:\s]*(.+)` whose matching semantics are
    embedded directly;
  * exceptions become `Except` / `Option` results.
-/
import Mathlib

namespace CodeCompass

/-! ## Python string primitives over `List Char` -/

/-- `str.lower()`: character-wise lowercasing. -/
def toLowerL (l : List Char) : List Char := l.map Char.toLower

/-- Python's substring test `pat in s`. -/
def containsSub (pat : List Char) : List Char → Bool
  | [] => pat.isPrefixOf []
  | c :: t => pat.isPrefixOf (c :: t) || containsSub pat t

/-- Python's `s.split(sep)` for a single-character separator: keeps empty
fields, so the result always has one more element than the number of
separators. -/
def pySplit (sep : Char) : List Char → List (List Char)
  | [] => [[]]
  | c :: cs =>
    if c = sep then [] :: pySplit sep cs
    else
      match pySplit sep cs with
      | [] => [[c]]
      | s :: rest => (c :: s) :: rest

/-- The whitespace characters stripped by Python's `str.strip()`. -/
def isPySpace (c : Char) : Bool :=
  c = ' ' || c = '\t' || c = '\n' || c = '\r' || c = '\x0b' || c = '\x0c'

/-- Python's `str.strip()`: remove leading and trailing whitespace. -/
def stripL (l : List Char) : List Char :=
  ((l.dropWhile isPySpace).reverse.dropWhile isPySpace).reverse

/-- Python's slice `l[a:b]` for `0 ≤ a ≤ b` (indices past the end are
clamped, and an empty slice results when `a ≥ b`). -/
def pyslice (l : List α) (a b : Nat) : List α := (l.take b).drop a

/-- Python's `enumerate(xs, k)`. -/
def enumFromL (k : Nat) : List α → List (Nat × α)
  | [] => []
  | a :: t => (k, a) :: enumFromL (k + 1) t

/-! ## Path model (src/utils/safety.py)

A raw caller-supplied path is a `List Char`; a canonical resolved path is
its segment list.  Filesystem resolution and existence are abstract. -/

abbrev RawPath := List Char

abbrev CPath := List (List Char)

/-- Abstract filesystem: `resolve` models `Path(p).resolve()` (total, as
in Python it returns a canonical path even for nonexistent files),
`present` models `Path.exists()`, `isDir` models `Path.is_dir()`, and
`cwd` models `Path.cwd()`. -/
structure FSModel where
  resolve : RawPath → CPath
  present : CPath → Bool
  isDir : CPath → Bool
  cwd : CPath

/-- The fixed traversal-marker list of `PathValidator._has_path_traversal`
(`dangerous_patterns` in src/utils/safety.py). -/
def dangerousPatterns : List (List Char) :=
  [['.', '.'],
   ['.', '.', '/'],
   ['.', '.', '\\'],
   ['.', '.', '%', '2', 'f'],
   ['.', '.', '%', '5', 'c'],
   ['.', '.', '%', '2', '5', '2', 'f'],
   ['.', '.', '%', '2', '5', '5', 'c']]

/-- `os.path.isabs` on POSIX: the path starts with a slash. -/
def isAbsL : RawPath → Bool
  | '/' :: _ => true
  | _ => false

/-- `PathValidator._is_within_allowed_roots`: `path.relative_to(root)`
succeeds exactly when the root's segments are a prefix of the path's
segments, so the test is segment-wise ancestor containment. -/
def is_within_allowed_roots (roots : List CPath) (p : CPath) : Bool :=
  roots.any (fun r => r.isPrefixOf p)

/-- `PathValidator._has_path_traversal`: a fixed-marker scan over the
lowercased raw string, plus a containment check for absolute paths. -/
def has_path_traversal (fs : FSModel) (roots : List CPath) (p : RawPath) : Bool :=
  if dangerousPatterns.any (fun pat => containsSub pat (toLowerL p)) then true
  else if isAbsL p && !is_within_allowed_roots roots (fs.resolve p) then true
  else false

/-- `PathValidator.is_safe_path`: marker check on the raw string, then
containment of the resolved path, then existence. -/
def is_safe_path (fs : FSModel) (roots : List CPath) (p : RawPath) : Bool :=
  let pathObj := fs.resolve p
  if has_path_traversal fs roots p then false
  else if !is_within_allowed_roots roots pathObj then false
  else if !fs.present pathObj then false
  else true

/-- `Path(p).parts` (POSIX, without the anchor): split on `/`, dropping
empty components and `.` components, as pathlib normalisation does. -/
def pathPartsSegs (p : RawPath) : List (List Char) :=
  (pySplit '/' p).filter (fun s => !s.isEmpty && s ≠ ['.'])

/-- `part.startswith(".")`. -/
def startsWithDot : List Char → Bool
  | '.' :: _ => true
  | _ => false

/-- `str()` of a resolved (absolute) path: `/` followed by the segments
joined with `/`. -/
def strOfResolved (r : CPath) : RawPath := '/' :: List.intercalate ['/'] r

/-- `PathValidator.sanitize_path`: drop `.` / `..` / dot-prefixed
segments, rejoin, re-validate; fall back to the first allowed root when
the rejoined path is not safe. -/
def sanitize_path (fs : FSModel) (roots : List CPath) (p : RawPath) : RawPath :=
  let parts := pathPartsSegs p
  let safeParts := parts.filter (fun part =>
    part ≠ ['.'] && part ≠ ['.', '.'] && !startsWithDot part)
  let sanitized : RawPath :=
    if isAbsL p then '/' :: List.intercalate ['/'] safeParts
    else if safeParts.isEmpty then ['.']
    else List.intercalate ['/'] safeParts
  if is_safe_path fs roots sanitized then sanitized
  else strOfResolved (roots.headD [])

/-- `PathValidator._validate_roots`: keep the roots that exist and are
directories; fall back to the current working directory when none remain. -/
def validate_roots (fs : FSModel) (roots : List CPath) : List CPath :=
  let valid := roots.filter (fun r => fs.present r && fs.isDir r)
  if valid.isEmpty then [fs.cwd] else valid

/-- `PathValidator.__init__`: resolve the candidate roots, then validate. -/
def init_roots (fs : FSModel) (rawRoots : List RawPath) : List CPath :=
  validate_roots fs (rawRoots.map fs.resolve)

/-- `PathValidator.add_allowed_root` (the resulting root list). -/
def add_allowed_root (fs : FSModel) (roots : List CPath) (root : RawPath) : List CPath :=
  let rp := fs.resolve root
  if fs.present rp && fs.isDir rp then
    if rp ∈ roots then roots else roots ++ [rp]
  else roots

/-- `PathValidator.remove_allowed_root` (the resulting root list):
`list.remove` deletes the first occurrence when present. -/
def remove_allowed_root (fs : FSModel) (roots : List CPath) (root : RawPath) : List CPath :=
  let rp := fs.resolve root
  if rp ∈ roots then roots.erase rp else roots

/-! ## File accessor model (src/core/file_utils.py)

Bytes are `List Nat`; text characters are an abstract type `α`.  A codec
is modelled by its decode function and the encoded byte width of each
character (the Python code only ever uses `len(....encode(enc))`, so the
width function captures every use of encoding). -/

/-- A text codec: `decode` returns `none` to model `UnicodeDecodeError`;
`width c` is the number of bytes `c` occupies in this codec, or `none`
when the codec cannot encode `c` — a strict `encode` call then raises
`UnicodeEncodeError`. -/
structure Encoding (α : Type) where
  decode : List Nat → Option (List α)
  width : α → Option Nat

/-- `len(s.encode(enc))` for a decoded string `s` (the Python code only
ever takes the length of an encode result): the sum of the per-character
widths, or `none` when any character is unencodable, modelling an
uncaught `UnicodeEncodeError` from the strict encode. -/
def encLenL (enc : Encoding α) : List α → Option Nat
  | [] => some 0
  | c :: s =>
    match enc.width c, encLenL enc s with
    | some w, some n => some (w + n)
    | _, _ => none

/-- Abstract statistical detector (the chardet library): given the raw
bytes it may report a codec with a confidence in hundredths; `none`
models a failure inside the library. -/
structure Chardet (α : Type) where
  detect : List Nat → Option (Encoding α × Nat)

/-- `FileUtils._detect_encoding`: accept the detection only above the
0.7 confidence threshold (confidence given in hundredths), otherwise
default to UTF-8. -/
def detect_encoding (cd : Chardet α) (utf8 : Encoding α) (data : List Nat) : Encoding α :=
  match cd.detect data with
  | none => utf8
  | some (enc, conf) => if 70 < conf then enc else utf8

/-- The state of the target of a `read_file` call: `present` models
`Path.exists()`, `isfile` models `Path.is_file()`, and `raw` is the byte
content (whose length is the stat size). -/
structure PyFile where
  present : Bool
  isfile : Bool
  raw : List Nat

/-- The hard failures `FileUtils.read_file` can raise:
`FileNotFoundError`, `ValueError` for a non-regular file, `ValueError`
for an oversized file, and an uncaught `UnicodeEncodeError` from
re-encoding the content with the detected codec (file_utils.py lines
60 and 64-65; the surrounding handler logs and re-raises it). -/
inductive ReadError where
  | notFound
  | notAFile
  | tooLarge
  | encodeError
deriving DecidableEq

/-- `settings.server.max_file_size_mb * 1024 * 1024` with the default
`max_file_size_mb = 10` from src/config/settings.py. -/
def maxFileSizeDefault : Nat := 10 * 1024 * 1024

/-- The `content` local of `FileUtils.read_file`: decode with the
detected codec, falling back on `UnicodeDecodeError` to lossy UTF-8
replacement (`rep` is `raw.decode('utf-8', errors='replace')`, a total
function), so this step never fails. -/
def decodedContent (cd : Chardet α) (utf8 : Encoding α)
    (rep : List Nat → List α) (raw : List Nat) : List α :=
  ((detect_encoding cd utf8 raw).decode raw).getD (rep raw)

/-- `FileUtils.read_file`: existence, regular-file and size checks; then
encoding detection and decoding (`decodedContent`); then the
byte-offset pagination of lines 59-67 of src/core/file_utils.py, which
slices the decoded character list using byte counts as indices.  Each
strict re-encode with the detected codec (`total_bytes`, `char_offset`,
`char_length`) can raise `UnicodeEncodeError` — in particular when the
detected codec failed to decode and the fallback content contains
characters it cannot encode — which propagates as `encodeError`.
Returns the windowed content and the total re-encoded byte length. -/
def read_file (maxSize : Nat) (cd : Chardet α) (utf8 : Encoding α)
    (rep : List Nat → List α) (f : PyFile) (offset len : Nat) :
    Except ReadError (List α × Nat) :=
  if !f.present then .error .notFound
  else if !f.isfile then .error .notAFile
  else if maxSize < f.raw.length then .error .tooLarge
  else
    match encLenL (detect_encoding cd utf8 f.raw) (decodedContent cd utf8 rep f.raw) with
    | none => .error .encodeError
    | some totalBytes =>
      if 0 < offset || len < (decodedContent cd utf8 rep f.raw).length then
        match encLenL (detect_encoding cd utf8 f.raw)
            ((decodedContent cd utf8 rep f.raw).take offset) with
        | none => .error .encodeError
        | some charOffset =>
          match encLenL (detect_encoding cd utf8 f.raw)
              (pyslice (decodedContent cd utf8 rep f.raw) charOffset (charOffset + len)) with
          | none => .error .encodeError
          | some charLength =>
            .ok (pyslice (decodedContent cd utf8 rep f.raw) charOffset
              (charOffset + charLength), totalBytes)
      else .ok (decodedContent cd utf8 rep f.raw, totalBytes)

/-! ## Scan engine model (src/core/search.py)

Candidate-file enumeration (`_get_search_paths`) walks the filesystem,
so the candidate files are passed in as a list of (path, decoded
content) pairs; the regex library is abstract. -/

/-- A compiled regex: `searchMatch line` is `pattern.search(line)`,
returning the matched text (`group()`) of the first match, if any. -/
structure CompiledRegex where
  searchMatch : List Char → Option (List Char)

/-- The `re` module: `compile query caseSensitive` returns `none` to
model `re.error` on an invalid pattern. -/
structure RegexEngine where
  compile : List Char → Bool → Option CompiledRegex

/-- One search hit, as assembled in `SearchEngine._search_in_file`. -/
structure SearchHit where
  path : RawPath
  line : Nat
  snippet : List Char
  matched : List Char
deriving DecidableEq

/-- `SearchEngine._search_in_file`.  In regex mode a compile failure is
caught by the `except re.error` handler, which only logs and returns the
hits collected so far (none, since compilation happens first).  In text
mode the query is a (case-insensitive by default) substring test per
line, one hit per matching line with `match` set to the raw query. -/
def search_in_file (eng : RegexEngine) (content : List Char) (path : RawPath)
    (query : List Char) (regex caseSensitive : Bool) : List SearchHit :=
  let lines := pySplit '\n' content
  if regex then
    match eng.compile query caseSensitive with
    | none => []
    | some pat =>
      (enumFromL 1 lines).filterMap (fun nl =>
        match pat.searchMatch nl.2 with
        | some g =>
          some { path := path, line := nl.1, snippet := stripL nl.2, matched := g }
        | none => none)
  else
    let searchText := if caseSensitive then query else toLowerL query
    (enumFromL 1 lines).filterMap (fun nl =>
      let lineText := if caseSensitive then nl.2 else toLowerL nl.2
      if containsSub searchText lineText then
        some { path := path, line := nl.1, snippet := stripL nl.2, matched := query }
      else none)

/-- The file loop of `SearchEngine.search`: stop before the next file
once the accumulated hit count reaches the limit (a file may overshoot
mid-file; the final truncation is applied by `search`). -/
def searchLoop (eng : RegexEngine) (query : List Char) (regex caseSensitive : Bool)
    (limit : Nat) : List (RawPath × List Char) → List SearchHit → List SearchHit
  | [], results => results
  | (p, c) :: rest, results =>
    if limit ≤ results.length then results
    else searchLoop eng query regex caseSensitive limit rest
      (results ++ search_in_file eng c p query regex caseSensitive)

/-- `SearchEngine.search` over the candidate files: run the loop, then
`results[:limit]`. -/
def search (eng : RegexEngine) (files : List (RawPath × List Char))
    (query : List Char) (regex caseSensitive : Bool) (limit : Nat) : List SearchHit :=
  (searchLoop eng query regex caseSensitive limit files []).take limit

/-- The response shape of the `search_code` tool in src/mcp_server.py:
either `{items, total, query}` or `{error, items: []}`. -/
inductive ToolResult where
  | ok (items : List SearchHit) (total : Nat) (query : List Char)
  | err (msg : List Char)
deriving DecidableEq

/-- The `search_code` tool handler: reject an unsafe non-empty path
prefix with an error result, otherwise run the search and wrap the
items. -/
def search_code (fs : FSModel) (roots : List CPath) (eng : RegexEngine)
    (files : List (RawPath × List Char)) (query : List Char)
    (regex caseSensitive : Bool) (pathPref : RawPath) (limit : Nat) : ToolResult :=
  if !pathPref.isEmpty && !is_safe_path fs roots pathPref then
    .err (String.toList "Invalid path prefix")
  else
    let results := search eng files query regex caseSensitive limit
    .ok results results.length query

/-- `SearchConfig` from src/config/settings.py with its defaults. -/
structure SearchConfig where
  default_limit : Nat := 50
  max_limit : Nat := 1000
  case_sensitive : Bool := false

/-- The default search configuration (`SearchConfig()`), whose
`max_limit` is 1000. -/
def defaultSearchConfig : SearchConfig := {}

/-! ## TODO extraction (src/core/search.py, `_find_todos_in_file`)

The six patterns are `MARKER[:\s]*(.+)` with `re.IGNORECASE`.  For such
a pattern, `re.search` matches at the leftmost position where the
marker occurs case-insensitively with at least one further character on
the line (backtracking lets `(.+)` steal the last separator character
when nothing else follows); `group(0)` then extends to the end of the
line and `group(1)` is the remainder after the maximal `[:\s]*` run that
still leaves one character. -/

/-- The six taxonomy markers, in the order of `SearchEngine.todo_patterns`. -/
def todoMarkers : List (List Char) :=
  [String.toList "TODO", String.toList "FIXME", String.toList "HACK",
   String.toList "NOTE", String.toList "XXX", String.toList "BUG"]

/-- Does `MARKER[:\s]*(.+)` match at the start of `line`?  The marker
must be a case-insensitive prefix and at least one character must
follow it. -/
def markerAt (m line : List Char) : Bool :=
  (toLowerL m).isPrefixOf (toLowerL line) && m.length < line.length

/-- `re.search` for `MARKER[:\s]*(.+)`: the matched suffix (`group(0)`,
which always runs to the end of the line) at the leftmost matching
position. -/
def reSearchTodo (m : List Char) : List Char → Option (List Char)
  | [] => none
  | c :: tl => if markerAt m (c :: tl) then some (c :: tl) else reSearchTodo m tl

/-- The characters the separator `[:\s]` matches. -/
def isSpaceOrColon (c : Char) : Bool := c = ':' || isPySpace c

/-- `group(1)` of a successful `MARKER[:\s]*(.+)` match with matched
text `g0`: skip the greedy separator run after the marker, backing off
so that at least one character remains for `(.+)`. -/
def todoGroup1 (m g0 : List Char) : List Char :=
  let after := g0.drop m.length
  after.drop (min ((after.takeWhile isSpaceOrColon).length) (after.length - 1))

/-- One extracted TODO comment, as assembled in
`SearchEngine._find_todos_in_file`. -/
structure TodoItem where
  path : RawPath
  line : Nat
  text : List Char
  kind : List Char
  snippet : List Char
deriving DecidableEq

/-- `SearchEngine._find_todos_in_file`: every line is tested against the
six patterns in order; `text` is `group(1).strip()` and `kind` (named
`type` in the Python dict) is `group(0).split(':')[0].strip()`. -/
def find_todos_in_file (content : List Char) (path : RawPath) : List TodoItem :=
  (enumFromL 1 (pySplit '\n' content)).flatMap (fun nl =>
    todoMarkers.filterMap (fun m =>
      (reSearchTodo m nl.2).map (fun g0 =>
        { path := path, line := nl.1,
          text := stripL (todoGroup1 m g0),
          kind := stripL (g0.takeWhile (fun c => c ≠ ':')),
          snippet := stripL nl.2 })))

/-! ## Concrete instances used by witnesses and counterexamples -/

/-- A regex library that rejects the tested pattern, modelling
`re.error` on compilation of an invalid pattern such as `"("`. -/
def engNone : RegexEngine := ⟨fun _ _ => none⟩

/-- A filesystem in which every raw path resolves into the allowed root
`/ok` and everything exists: used to show the traversal check fires
regardless of resolution. -/
def fsPerm : FSModel :=
  { resolve := fun _ => [String.toList "ok"]
    present := fun _ => true
    isDir := fun _ => true
    cwd := [String.toList "ok"] }

/-- A filesystem in which every raw path resolves to the existing,
readable directory `/elsewhere`, outside the allowed root `/ok`. -/
def fsOutside : FSModel :=
  { resolve := fun _ => [String.toList "elsewhere"]
    present := fun _ => true
    isDir := fun _ => true
    cwd := [String.toList "elsewhere"] }

/-- The allowed-root set `[/ok]`. -/
def rootsOk : List CPath := [[String.toList "ok"]]

/-- Literal resolution of an absolute raw path into its segments
(dropping empty and `.` components); adequate for fixtures whose paths
contain no symlinks or `..` segments. -/
def parseSegs (raw : RawPath) : CPath :=
  (pySplit '/' raw).filter (fun s => !s.isEmpty && s ≠ ['.'])

/-- Fixture filesystem for the sanitize round-trip: only `/ok/.h/f`
exists; the first allowed root is a directory literally named `w..w`. -/
def fs8 : FSModel :=
  { resolve := parseSegs
    present := fun c => c = [String.toList "ok", String.toList ".h", String.toList "f"]
    isDir := fun _ => true
    cwd := [] }

/-- Allowed roots `[/w..w, /ok]` (both existing directories at
construction; no check forbids `..` inside a root's own name). -/
def roots8 : List CPath := [[String.toList "w..w"], [String.toList "ok"]]

/-- The safe path `/ok/.h/f` whose hidden segment `.h` is stripped by
sanitize. -/
def p8 : RawPath := String.toList "/ok/.h/f"

/-- Fixture filesystem for the sanitize witness: `/ok` and `/ok/f`
exist. -/
def fsW : FSModel :=
  { resolve := parseSegs
    present := fun c =>
      c = [String.toList "ok"] || c = [String.toList "ok", String.toList "f"]
    isDir := fun _ => true
    cwd := [] }

/-- Fixture filesystem for root add/remove: every raw path resolves to
the single segment it names and everything is an existing directory. -/
def fs9 : FSModel :=
  { resolve := fun raw => [raw]
    present := fun _ => true
    isDir := fun _ => true
    cwd := [String.toList "cwd"] }

/-- A restricted executable UTF-8 decoder covering one-byte (ASCII) and
three-byte sequences, enough for the fixtures; `none` models
`UnicodeDecodeError`. -/
def utf8DecodeSimple : List Nat → Option (List Nat)
  | [] => some []
  | b :: rest =>
    if b < 128 then (utf8DecodeSimple rest).map (fun l => b :: l)
    else
      match rest with
      | b2 :: b3 :: rest2 =>
        if 224 ≤ b && b < 240 && 128 ≤ b2 && b2 < 192 && 128 ≤ b3 && b3 < 192 then
          (utf8DecodeSimple rest2).map
            (fun l => ((b - 224) * 4096 + (b2 - 128) * 64 + (b3 - 128)) :: l)
        else none
      | _ => none

/-- The UTF-8 codec over code points (`Nat`): characters below 128
encode to one byte, the tested three-byte characters to three; UTF-8
can encode every code point the fixtures use. -/
def utf8Ex : Encoding Nat :=
  { decode := utf8DecodeSimple, width := fun c => some (if c < 128 then 1 else 3) }

/-- A detector returning no usable result, so `_detect_encoding` falls
back to UTF-8. -/
def cdNone : Chardet Nat := ⟨fun _ => none⟩

/-- A lossy-replacement fallback decode (unused by fixtures whose bytes
decode cleanly). -/
def repNil : List Nat → List Nat := fun _ => []

/-- UTF-8 bytes of `€a€aaaa`: a 3-byte character, `a`, a 3-byte
character, then four `a`s — 7 characters, 11 bytes. -/
def c4raw : List Nat := [226, 130, 172, 97, 226, 130, 172, 97, 97, 97, 97]

/-- An existing regular file holding `c4raw`. -/
def c4file : PyFile := { present := true, isfile := true, raw := c4raw }

/-- The content returned by `read_file` for the 1-byte window starting
at byte offset `k` of `c4file`. -/
def c4window (k : Nat) : List Nat :=
  match read_file maxFileSizeDefault cdNone utf8Ex repNil c4file k 1 with
  | .ok (c, _) => c
  | .error _ => []

/-- An existing, small, regular ASCII file for the read witness. -/
def c5file : PyFile := { present := true, isfile := true, raw := [104, 105] }

/-- A strict single-byte codec (an `ascii`-like codec): it decodes only
byte values below 128 and can encode only code points below 128 — any
other character makes a strict encode raise `UnicodeEncodeError`. -/
def asciiStrict : Encoding Nat :=
  { decode := fun bs => if bs.all (fun b => b < 128) then some bs else none
    width := fun c => if c < 128 then some 1 else none }

/-- A detector reporting the strict single-byte codec with confidence
0.90, above the 0.7 acceptance threshold. -/
def cdAscii : Chardet Nat := ⟨fun _ => some (asciiStrict, 90)⟩

/-- `bytes.decode('utf-8', errors='replace')` restricted to the tested
input shape: ASCII bytes pass through, any other byte becomes the
replacement character U+FFFD (65533). -/
def utf8Replace : List Nat → List Nat :=
  fun bs => bs.map (fun b => if b < 128 then b else 65533)

/-- An existing regular file whose bytes `[104, 255]` the detected
strict codec cannot decode, so the lossy fallback produces content
containing U+FFFD — which that codec then cannot re-encode. -/
def c5BadFile : PyFile := { present := true, isfile := true, raw := [104, 255] }

/-- `n` lines each consisting of the single character `a`, joined by
newlines. -/
def mkAllA : Nat → List Char
  | 0 => []
  | 1 => ['a']
  | n + 2 => 'a' :: '\n' :: mkAllA (n + 1)

/-- A candidate file of 1001 one-character lines, every line matching
the query `a`. -/
def c6files : List (RawPath × List Char) := [(String.toList "f", mkAllA 1001)]

/-- A line whose TODO marker is not followed by a colon. -/
def c7content : List Char := String.toList "# TODO fix this"

/-- A conventional FIXME line used by the witness. -/
def c7wContent : List Char := String.toList "// FIXME: handle null case"

/-- The single item `find_todos_in_file` extracts from `c7wContent`. -/
def c7wItem : TodoItem :=
  { path := String.toList "f", line := 1,
    text := String.toList "handle null case",
    kind := String.toList "FIXME",
    snippet := String.toList "// FIXME: handle null case" }

/-! ## Helper lemmas -/

theorem pySplit_ne_nil (sep : Char) : ∀ l : List Char, pySplit sep l ≠ []
  | [] => by simp [pySplit]
  | c :: cs => by
    by_cases h : c = sep
    · simp [pySplit, h]
    · cases hs : pySplit sep cs with
      | nil => exact absurd hs (pySplit_ne_nil sep cs)
      | cons s rest => simp [pySplit, h, hs]

theorem pySplit_head_prefix (sep : Char) :
    ∀ (l s : List Char) (t : List (List Char)), pySplit sep l = s :: t → s <+: l
  | [], s, t, h => by
    simp [pySplit] at h
    simp [← h.1]
  | c :: cs, s, t, h => by
    by_cases hc : c = sep
    · simp [pySplit, hc] at h
      rw [h.1]
      exact List.nil_prefix
    · cases hs : pySplit sep cs with
      | nil => exact absurd hs (pySplit_ne_nil sep cs)
      | cons s' rest =>
        simp [pySplit, hc, hs] at h
        rw [← h.1]
        exact List.cons_prefix_cons.mpr ⟨rfl, pySplit_head_prefix sep cs s' rest hs⟩

theorem mem_pySplit_infix (sep : Char) :
    ∀ (l xs : List Char), xs ∈ pySplit sep l → xs <:+: l
  | [], xs, h => by
    simp [pySplit] at h
    simp [h]
  | c :: cs, xs, h => by
    by_cases hc : c = sep
    · simp only [pySplit, if_pos hc] at h
      rcases List.mem_cons.mp h with h1 | h2
      · simp [h1]
      · exact List.infix_cons ( mem_pySplit_infix sep cs xs h2)
    · cases hs : pySplit sep cs with
      | nil => exact absurd hs (pySplit_ne_nil sep cs)
      | cons s rest =>
        rw [pySplit, if_neg hc, hs] at h
        rcases List.mem_cons.mp h with h1 | h2
        · subst h1
          exact (List.cons_prefix_cons.mpr
            ⟨rfl, pySplit_head_prefix sep cs s rest hs⟩).isInfix
        · have hmem : xs ∈ pySplit sep cs := by
            rw [hs]
            exact List.mem_cons_of_mem _ h2
          exact List.infix_cons ( mem_pySplit_infix sep cs xs hmem)

theorem containsSub_of_infix : ∀ {pat l : List Char}, pat <:+: l → containsSub pat l = true := by
  intro pat l
  induction l with
  | nil =>
    intro h
    rw [List.infix_nil] at h
    subst h
    rfl
  | cons c t ih =>
    intro h
    rw [containsSub]
    rcases List.infix_cons_iff.mp h with h1 | h2
    · simp [ List.isPrefixOf_iff_prefix, h1]
    · simp [ih h2]

/-! ## C1 -/

/-- C1: for every raw path string containing a literal `..` segment,
`is_safe_path` returns `false`, for every filesystem (so regardless of
whether the path would resolve inside an allowed root): the
traversal-marker check inspects the raw string, independent of
resolution. -/
theorem C1_dotdot_segment_unsafe (fs : FSModel) (roots : List CPath) (p : RawPath)
    (h : ['.', '.'] ∈ pySplit '/' p) : is_safe_path fs roots p = false := by
  have hinf : ['.', '.'] <:+: p := mem_pySplit_infix '/' p _ h
  have hdot : Char.toLower '.' = '.' := by decide
  have hlow : ['.', '.'] <:+: toLowerL p := by
    have hm := List.IsInfix.map Char.toLower hinf
    simpa [toLowerL, hdot] using hm
  have hc : containsSub ['.', '.'] (toLowerL p) = true := containsSub_of_infix hlow
  have hd : dangerousPatterns.any (fun pat => containsSub pat (toLowerL p)) = true :=
    List.any_eq_true.mpr ⟨['.', '.'], by simp [dangerousPatterns], hc⟩
  simp [is_safe_path, has_path_traversal, hd]

/-- Witness for C1: `/ok/../x` contains a `..` segment and is rejected
even on a filesystem where it resolves inside the allowed root `/ok` and
exists. -/
theorem C1_witness : is_safe_path fsPerm rootsOk (String.toList "/ok/../x") = false :=
  C1_dotdot_segment_unsafe fsPerm rootsOk _ (by decide)

/-! ## C2 -/

/-- C2: whenever the resolved form of a path is outside every allowed
root (segment-wise ancestor containment via `relative_to`),
`is_safe_path` returns `false` — for every filesystem, hence even when
the path exists and is readable; and the containment test is not string
prefix matching: `root2` is not inside `root`. -/
theorem C2_outside_roots_unsafe :
    (∀ (fs : FSModel) (roots : List CPath) (p : RawPath),
        is_within_allowed_roots roots (fs.resolve p) = false →
        is_safe_path fs roots p = false) ∧
    is_within_allowed_roots [[String.toList "root"]] [String.toList "root2"] = false := by
  constructor
  · intro fs roots p h
    by_cases ht : has_path_traversal fs roots p = true <;>
      simp [is_safe_path, ht, h]
  · decide

/-- Witness for C2: `/elsewhere` exists and is readable but resolves
outside the allowed root `/ok`, so it is rejected. -/
theorem C2_witness : is_safe_path fsOutside rootsOk (String.toList "/elsewhere") = false :=
  C2_outside_roots_unsafe.1 fsOutside rootsOk _ (by decide)

/-! ## C9 -/

/-- Counterexample for C9: after a valid construction from the single
root `/r`, one `remove_allowed_root` call empties the allowed-root set —
the code has no guard against removing the last root. -/
theorem C9_cex :
    init_roots fs9 [String.toList "/r"] ≠ [] ∧
    remove_allowed_root fs9 (init_roots fs9 [String.toList "/r"]) (String.toList "/r") = [] := by
  constructor
  · decide
  · decide

/-- C9 amended: the allowed-root set is non-empty after construction
(falling back to the current working directory when no candidate is
valid) and `add_allowed_root` preserves non-emptiness, but
`remove_allowed_root` does not. -/
theorem C9_amended :
    (∀ (fs : FSModel) (rawRoots : List RawPath), init_roots fs rawRoots ≠ []) ∧
    (∀ (fs : FSModel) (roots : List CPath) (r : RawPath),
        roots ≠ [] → add_allowed_root fs roots r ≠ []) := by
  constructor
  · intro fs rawRoots
    simp only [init_roots, validate_roots]
    split
    · simp
    · next h => simpa [List.isEmpty_iff] using h
  · intro fs roots r h
    simp only [add_allowed_root]
    split
    · split
      · exact h
      · simp
    · exact h

/-- Witness for C9 amended: adding a root to a singleton root set keeps
it non-empty. -/
theorem C9_amended_witness :
    add_allowed_root fs9 [[String.toList "r"]] (String.toList "s") ≠ [] :=
  C9_amended.2 fs9 [[String.toList "r"]] (String.toList "s") (by decide)

/-! ## C3 -/

/-- Counterexample for C3: with a regex library that rejects the
pattern `(` (modelling `re.error`), the `search_code` tool returns an
ordinary `ok` result with zero items and no error field — the compile
failure is only logged inside `_search_in_file`, so no query-level
error is reported. -/
theorem C3_cex :
    search_code fsPerm rootsOk engNone [(String.toList "f", String.toList "(foo")]
      (String.toList "(") true false [] 50 =
    ToolResult.ok [] 0 (String.toList "(") := by
  decide

/-- C3 amended: an invalid regex pattern contributes zero hits and does
not abort the search or any other query (the tool still returns a
well-formed result), but the error is only logged, not surfaced: the
response is a plain `ok` with an empty item list. -/
theorem C3_amended (fs : FSModel) (roots : List CPath) (eng : RegexEngine)
    (files : List (RawPath × List Char)) (q : List Char) (cs : Bool)
    (pathPref : RawPath) (limit : Nat)
    (hcompile : eng.compile q cs = none)
    (hpref : pathPref = [] ∨ is_safe_path fs roots pathPref = true) :
    search_code fs roots eng files q true cs pathPref limit =
      ToolResult.ok [] 0 q := by
  have hfile : ∀ (p : RawPath) (c : List Char), search_in_file eng c p q true cs = [] := by
    intro p c
    simp [search_in_file, hcompile]
  have hloop : ∀ fl : List (RawPath × List Char),
      searchLoop eng q true cs limit fl [] = [] := by
    intro fl
    induction fl with
    | nil => rfl
    | cons f rest ih =>
      cases f with
      | mk p c =>
        rw [searchLoop]
        split
        · rfl
        · rw [hfile, List.append_nil]
          exact ih
  rcases hpref with h | h <;> simp [search_code, h, search, hloop]

/-- Witness for C3 amended: concrete instantiation with the rejected
pattern `(` over a one-file tree. -/
theorem C3_amended_witness :
    search_code fsPerm rootsOk engNone [(String.toList "f", String.toList "x")]
      (String.toList "(") true false [] 50 =
    ToolResult.ok [] 0 (String.toList "(") :=
  C3_amended fsPerm rootsOk engNone _ _ _ _ _ rfl (Or.inl rfl)

/-! ## C5 -/

theorem pyslice_subset (l : List α) (a b : Nat) : pyslice l a b ⊆ l := by
  intro c hc
  exact List.take_subset _ _ (List.drop_subset _ _ hc)

theorem encLenL_isSome_of_all (enc : Encoding α) :
    ∀ {s : List α}, (∀ c ∈ s, enc.width c ≠ none) → ∃ n, encLenL enc s = some n
  | [], _ => ⟨0, rfl⟩
  | c :: s, h => by
    rcases Option.ne_none_iff_exists'.mp (h c (List.mem_cons_self c s)) with ⟨w, hw⟩
    rcases encLenL_isSome_of_all enc (fun x hx => h x (List.mem_cons_of_mem _ hx))
      with ⟨n, hn⟩
    exact ⟨w + n, by rw [encLenL, hw, hn]⟩

/-- Counterexample for C5: malformed text on which `read_file` does
raise.  The detector reports a strict `ascii`-like codec above the 0.7
confidence threshold; that codec fails to decode the byte `255`, so the
content falls back to lossy UTF-8 replacement and contains U+FFFD —
which the detected codec cannot re-encode at
`total_bytes = len(content.encode(encoding))`, so the uncaught
`UnicodeEncodeError` propagates instead of a result being returned: a
fourth hard failure besides not-found, not-a-file and too-large. -/
theorem C5_cex :
    asciiStrict.decode c5BadFile.raw = none ∧
    utf8Replace c5BadFile.raw = [104, 65533] ∧
    read_file maxFileSizeDefault cdAscii asciiStrict utf8Replace c5BadFile 0 2000 =
      .error .encodeError := by
  refine ⟨by rfl, by rfl, by rfl⟩

/-- C5 amended: the decode step itself never hard-fails — when the
detected codec cannot decode, the lossy UTF-8 replacement fallback is
total and content is still produced — but `read_file` then re-encodes
the content with the detected codec (strict errors) to compute
`total_bytes` and the pagination window, and that encode is a fourth
hard failure mode on malformed text.  Whenever every character of the
decoded (possibly fallback) content is encodable in the chosen codec,
a result is returned. -/
theorem C5_amended {α : Type} (maxSize : Nat) (cd : Chardet α) (utf8 : Encoding α)
    (rep : List Nat → List α) (f : PyFile) (offset len : Nat)
    (h1 : f.present = true) (h2 : f.isfile = true) (h3 : f.raw.length ≤ maxSize)
    (h4 : ∀ c ∈ decodedContent cd utf8 rep f.raw,
        (detect_encoding cd utf8 f.raw).width c ≠ none) :
    ∃ content total,
      read_file maxSize cd utf8 rep f offset len = .ok (content, total) := by
  obtain ⟨n, hn⟩ := encLenL_isSome_of_all (detect_encoding cd utf8 f.raw) h4
  have hm4 : ∀ c ∈ (decodedContent cd utf8 rep f.raw).take offset,
      (detect_encoding cd utf8 f.raw).width c ≠ none :=
    fun c hc => h4 c (List.take_subset _ _ hc)
  obtain ⟨m, hm⟩ := encLenL_isSome_of_all (detect_encoding cd utf8 f.raw) hm4
  have hk4 : ∀ c ∈ pyslice (decodedContent cd utf8 rep f.raw) m (m + len),
      (detect_encoding cd utf8 f.raw).width c ≠ none :=
    fun c hc => h4 c ( pyslice_subset _ m (m + len) hc)
  obtain ⟨k, hk⟩ := encLenL_isSome_of_all (detect_encoding cd utf8 f.raw) hk4
  rw [read_file, h1, h2, if_neg (by simp), if_neg (by simp), if_neg (by omega)]
  simp only [hn]
  split
  · simp only [hm, hk]
    exact ⟨_, _, rfl⟩
  · exact ⟨_, _, rfl⟩

/-- Witness for C5 amended: a concrete two-byte ASCII file read with an
arbitrary window; every character is UTF-8 encodable. -/
theorem C5_amended_witness :
    ∃ content total,
      read_file maxFileSizeDefault cdNone utf8Ex repNil c5file 3 5 = .ok (content, total) :=
  C5_amended maxFileSizeDefault cdNone utf8Ex repNil c5file 3 5 rfl rfl
    (by decide) (by decide)

/-! ## C6 -/

theorem pySplit_mkAllA : ∀ n : Nat, pySplit '\n' (mkAllA (n + 1)) = List.replicate (n + 1) ['a']
  | 0 => rfl
  | n + 1 => by
    have ih := pySplit_mkAllA n
    show pySplit '\n' ('a' :: '\n' :: mkAllA (n + 1)) = _
    rw [pySplit, if_neg (by decide), pySplit, if_pos rfl, ih]
    rfl

theorem enumFromL_length : ∀ (k : Nat) (l : List α), (enumFromL k l).length = l.length
  | _, [] => rfl
  | k, _ :: t => by
    rw [enumFromL, List.length_cons, List.length_cons, enumFromL_length (k + 1) t]

theorem mem_enumFromL : ∀ {k : Nat} {l : List α} {x : Nat × α},
    x ∈ enumFromL k l → x.2 ∈ l := by
  intro k l
  induction l generalizing k with
  | nil => intro x h; cases h
  | cons a t ih =>
    intro x h
    rw [enumFromL] at h
    rcases List.mem_cons.mp h with h1 | h2
    · subst h1; exact List.mem_cons_self a t
    · exact List.mem_cons_of_mem _ (ih h2)

/-- In text mode, a file on which every line passes the substring test
yields exactly one hit per line. -/
theorem search_in_file_text_all_length (eng : RegexEngine) (content : List Char)
    (p : RawPath) (q : List Char) (cs : Bool)
    (h : ∀ line ∈ pySplit '\n' content,
        containsSub (if cs then q else toLowerL q)
          (if cs then line else toLowerL line) = true) :
    (search_in_file eng content p q false cs).length = (pySplit '\n' content).length := by
  rw [search_in_file]
  simp only [Bool.false_eq_true, if_false]
  rw [← enumFromL_length 1 (pySplit '\n' content)]
  generalize pySplit '\n' content = lines at h ⊢
  generalize 1 = k
  induction lines generalizing k with
  | nil => rfl
  | cons l ls ih =>
    rw [enumFromL, List.filterMap_cons, List.length_cons]
    have hl := h l (List.mem_cons_self l ls)
    simp only [hl, if_true]
    rw [List.length_cons, ih (fun line hm => h line (List.mem_cons_of_mem _ hm)) (k + 1)]

theorem searchLoop_single (eng : RegexEngine) (q : List Char) (r cs : Bool)
    (limit : Nat) (p : RawPath) (c : List Char) (h : 0 < limit) :
    searchLoop eng q r cs limit [(p, c)] [] = search_in_file eng c p q r cs := by
  rw [searchLoop, if_neg (by simpa using Nat.not_le_of_lt h), searchLoop, List.nil_append]

/-- Counterexample for C6: a caller-supplied limit of 2000 on a file
with 1001 matching lines yields 1001 hits — more than the configured
`max_limit` of 1000, which the search never consults. -/
theorem C6_cex :
    (search engNone c6files ['a'] false false 2000).length = 1001 ∧
    defaultSearchConfig.max_limit < 1001 := by
  constructor
  · have hlines : pySplit '\n' (mkAllA 1001) = List.replicate 1001 ['a'] :=
      pySplit_mkAllA 1000
    have hlen : (search_in_file engNone (mkAllA 1001) (String.toList "f")
        ['a'] false false).length = 1001 := by
      rw [search_in_file_text_all_length, hlines, List.length_replicate]
      intro line hm
      rw [hlines] at hm
      rw [List.eq_of_mem_replicate hm]
      decide
    rw [search, c6files, searchLoop_single _ _ _ _ _ _ _ (by norm_num),
      List.length_take, hlen]
    omega
  · decide

/-- C6 amended: the caller-supplied limit is applied as-is — the result
list is truncated to the caller's limit, but the configured
`max_limit` is never consulted, so a caller can obtain more than the
configured maximum (see the counterexample). -/
theorem C6_amended (eng : RegexEngine) (files : List (RawPath × List Char))
    (q : List Char) (regex cs : Bool) (limit : Nat) :
    (search eng files q regex cs limit).length ≤ limit := by
  rw [search, List.length_take]
  exact Nat.min_le_left _ _

/-! ## C8 -/

/-- Counterexample for C8: with allowed roots `[/w..w, /ok]` (both valid
directories at construction) and the safe path `/ok/.h/f`, sanitize
strips the hidden segment `.h`, the stripped path `/ok/f` does not
exist, and the fallback — the first allowed root `/w..w` — is itself
rejected by the traversal-marker scan, so `sanitize` maps a safe path
to an unsafe one. -/
theorem C8_cex :
    is_safe_path fs8 roots8 p8 = true ∧
    sanitize_path fs8 roots8 p8 = String.toList "/w..w" ∧
    is_safe_path fs8 roots8 (sanitize_path fs8 roots8 p8) = false := by
  refine ⟨by decide, by decide, by decide⟩

theorem safe_or_fallback (fs : FSModel) (roots : List CPath) (x fb : RawPath)
    (hfb : is_safe_path fs roots fb = true) :
    is_safe_path fs roots (if is_safe_path fs roots x = true then x else fb) = true := by
  split
  · next h => exact h
  · exact hfb

/-- C8 amended: if the first allowed root is itself safe (its string
form passes the validator), then sanitizing any already-safe path
yields a safe path: the stripped path is returned only when it
re-validates, and otherwise the fallback root is safe by hypothesis. -/
theorem C8_amended (fs : FSModel) (roots : List CPath) (p : RawPath)
    (hroot : is_safe_path fs roots (strOfResolved (roots.headD [])) = true)
    (_hp : is_safe_path fs roots p = true) :
    is_safe_path fs roots (sanitize_path fs roots p) = true := by
  rw [sanitize_path]
  exact safe_or_fallback fs roots _ _ hroot

/-- Witness for C8 amended: on a filesystem where `/ok` and `/ok/f`
exist, sanitizing the safe path `/ok/f` yields a safe path. -/
theorem C8_amended_witness :
    is_safe_path fsW rootsOk (sanitize_path fsW rootsOk (String.toList "/ok/f")) = true :=
  C8_amended fsW rootsOk (String.toList "/ok/f") (by decide) (by decide)

/-! ## C4 -/

/-- C4 (failing input): reading the 11-byte file `€a€aaaa` through
eleven increasing, non-overlapping 1-byte windows and concatenating the
returned contents yields only 5 of the 7 decoded characters — the
"byte offset to character offset" conversion of
src/core/file_utils.py lines 62-67 uses encoded byte counts as
character indices, so characters 5 and 6 are lost, while a single full
read returns all 7 characters with the correct total byte count. -/
theorem C4_pagination_bug :
    ((List.range 11).map c4window).flatten = [8364, 97, 8364, 97, 97] ∧
    utf8Ex.decode c4raw = some [8364, 97, 8364, 97, 97, 97, 97] ∧
    read_file maxFileSizeDefault cdNone utf8Ex repNil c4file 0 2000 =
      .ok ([8364, 97, 8364, 97, 97, 97, 97], 11) := by
  refine ⟨by decide, by decide, by rfl⟩

/-! ## C10 -/

theorem containsSub_nil : ∀ l : List Char, containsSub [] l = true
  | [] => rfl
  | _ :: _ => by rw [containsSub]; rfl

/-- C10: in text mode an empty query matches every line (the empty
string is a substring of every line), so `_search_in_file` returns one
hit per line, in discovery order, and the full search returns exactly
`min limit totalLines` hits — not zero results and not an error. -/
theorem C10_empty_query_matches_all :
    (∀ (eng : RegexEngine) (content : List Char) (p : RawPath) (cs : Bool),
        search_in_file eng content p [] false cs =
          (enumFromL 1 (pySplit '\n' content)).map (fun nl =>
            { path := p, line := nl.1, snippet := stripL nl.2, matched := [] })) ∧
    (∀ (eng : RegexEngine) (files : List (RawPath × List Char)) (cs : Bool) (limit : Nat),
        (search eng files [] false cs limit).length =
          min limit ((files.map (fun f => (pySplit '\n' f.2).length)).sum)) := by
  have hfile : ∀ (eng : RegexEngine) (cs : Bool) (p : RawPath) (c : List Char),
      (search_in_file eng c p [] false cs).length = (pySplit '\n' c).length := by
    intro eng cs p c
    apply search_in_file_text_all_length
    intro line hm
    cases cs <;> simp [containsSub_nil, toLowerL]
  constructor
  · intro eng content p cs
    rw [search_in_file]
    simp only [Bool.false_eq_true, if_false]
    cases cs <;>
      (simp only [Bool.false_eq_true, if_false, if_true, toLowerL, List.map_nil,
        containsSub_nil, if_true]
       generalize enumFromL 1 (pySplit '\n' content) = e
       induction e with
       | nil => rfl
       | cons x t ih => rw [List.filterMap_cons, List.map_cons, ih])
  · intro eng files cs limit
    have hloop : ∀ (fl : List (RawPath × List Char)) (acc : List SearchHit),
        (searchLoop eng [] false cs limit fl acc).length =
          acc.length + (fl.map (fun f => (pySplit '\n' f.2).length)).sum ∨
        (limit ≤ (searchLoop eng [] false cs limit fl acc).length ∧
          (searchLoop eng [] false cs limit fl acc).length ≤
            acc.length + (fl.map (fun f => (pySplit '\n' f.2).length)).sum) := by
      intro fl
      induction fl with
      | nil =>
        intro acc
        left
        simp [searchLoop]
      | cons f rest ih =>
        intro acc
        cases f with
        | mk p c =>
          rw [searchLoop]
          by_cases hl : limit ≤ acc.length
          · rw [if_pos hl]
            right
            exact ⟨hl, Nat.le_add_right _ _⟩
          · rw [if_neg hl]
            rcases ih (acc ++ search_in_file eng c p [] false cs) with h1 | ⟨h2a, h2b⟩
            · left
              rw [h1, List.length_append, hfile]
              simp only [List.map_cons, List.sum_cons]
              omega
            · right
              refine ⟨h2a, ?_⟩
              rw [List.length_append, hfile] at h2b
              simp only [List.map_cons, List.sum_cons]
              omega
    rcases hloop files [] with h | ⟨h2a, h2b⟩
    · rw [search, List.length_take, h]
      simp
    · rw [search, List.length_take]
      simp only [List.length_nil, Nat.zero_add] at h2b
      omega

/-! ## C7 helper lemmas: `strip` and prefix preservation -/

theorem dropWhile_dropWhile_self (p : α → Bool) :
    ∀ l : List α, (l.dropWhile p).dropWhile p = l.dropWhile p
  | [] => rfl
  | a :: t => by
    by_cases h : p a
    · rw [List.dropWhile_cons, if_pos h, dropWhile_dropWhile_self p t]
    · rw [List.dropWhile_cons, if_neg h, List.dropWhile_cons, if_neg h]

theorem dropWhile_eq_self_of_none (p : α → Bool) :
    ∀ {l : List α}, (∀ c ∈ l, p c = false) → l.dropWhile p = l
  | [], _ => rfl
  | a :: t, h => by
    rw [List.dropWhile_cons, if_neg (by simp [h a (List.mem_cons_self a t)])]

theorem head_false_of_dropWhile_eq_self {p : α → Bool} {a : α} {t : List α}
    (h : (a :: t).dropWhile p = a :: t) : p a = false := by
  by_cases hp : p a
  · rw [List.dropWhile_cons, if_pos hp] at h
    have hl := (List.dropWhile_suffix (l := t) p).sublist.length_le
    rw [h] at hl
    simp at hl
  · simpa using hp

theorem rightStrip_prefix (p : α → Bool) (l : List α) :
    (l.reverse.dropWhile p).reverse <+: l := by
  have h := List.reverse_prefix.mpr (List.dropWhile_suffix (l := l.reverse) p)
  rwa [List.reverse_reverse] at h

theorem prefix_takeWhile_of_all (p : α → Bool) :
    ∀ {l₁ l₂ : List α}, l₁ <+: l₂ → (∀ c ∈ l₁, p c = true) → l₁ <+: l₂.takeWhile p
  | [], _, _, _ => List.nil_prefix
  | a :: t, l₂, h, hall => by
    rcases h with ⟨r, hr⟩
    subst hr
    rw [List.cons_append, List.takeWhile_cons,
      if_pos (hall a (List.mem_cons_self a t))]
    exact List.cons_prefix_cons.mpr
      ⟨rfl, prefix_takeWhile_of_all p ⟨r, rfl⟩
        (fun c hc => hall c (List.mem_cons_of_mem _ hc))⟩

theorem prefix_rightStrip_of_none (p : α → Bool) {l₁ l₂ : List α}
    (h : l₁ <+: l₂) (hnone : ∀ c ∈ l₁, p c = false) :
    l₁ <+: (l₂.reverse.dropWhile p).reverse := by
  rcases h with ⟨r, hr⟩
  subst hr
  rw [List.reverse_append, List.dropWhile_append]
  split
  · rw [dropWhile_eq_self_of_none p (fun c hc => hnone c (List.mem_reverse.mp hc)),
      List.reverse_reverse]
  · rw [List.reverse_append, List.reverse_reverse]
    exact List.prefix_append _ _

theorem dropWhile_eq_self_of_prefix_none {p : α → Bool} {l₁ l₂ : List α}
    (h : l₁ <+: l₂) (hne : l₁ ≠ []) (hnone : ∀ c ∈ l₁, p c = false) :
    l₂.dropWhile p = l₂ := by
  cases l₁ with
  | nil => exact absurd rfl hne
  | cons a t =>
    rcases h with ⟨r, hr⟩
    subst hr
    rw [List.cons_append, List.dropWhile_cons,
      if_neg (by simp [hnone a (List.mem_cons_self a t)])]

theorem prefix_stripL_of_none {l₁ l₂ : List Char}
    (h : l₁ <+: l₂) (hne : l₁ ≠ []) (hnone : ∀ c ∈ l₁, isPySpace c = false) :
    l₁ <+: stripL l₂ := by
  rw [stripL, dropWhile_eq_self_of_prefix_none h hne hnone]
  exact prefix_rightStrip_of_none _ h hnone

theorem stripL_idem (l : List Char) : stripL (stripL l) = stripL l := by
  have hAself : (l.dropWhile isPySpace).dropWhile isPySpace = l.dropWhile isPySpace :=
    dropWhile_dropWhile_self _ l
  have hpre : stripL l <+: l.dropWhile isPySpace := rightStrip_prefix _ _
  have s1 : (stripL l).dropWhile isPySpace = stripL l := by
    cases hRc : stripL l with
    | nil => rfl
    | cons a t =>
      rcases hpre with ⟨r, hr⟩
      rw [hRc, List.cons_append] at hr
      have hpa : isPySpace a = false :=
        head_false_of_dropWhile_eq_self (hr ▸ hAself)
      rw [List.dropWhile_cons, if_neg (by simp [hpa])]
  have s2 : (stripL l).reverse.dropWhile isPySpace = (stripL l).reverse := by
    rw [stripL, List.reverse_reverse]
    exact dropWhile_dropWhile_self _ _
  rw [stripL, s1, s2, List.reverse_reverse]

theorem reSearchTodo_some (m : List Char) :
    ∀ {l g0 : List Char}, reSearchTodo m l = some g0 → markerAt m g0 = true
  | [], _, h => by simp [reSearchTodo] at h
  | c :: tl, g0, h => by
    rw [reSearchTodo] at h
    split at h
    · next hm =>
      cases h
      exact hm
    · exact reSearchTodo_some m h

theorem todoMarker_chars :
    ∀ m ∈ todoMarkers, ∀ x ∈ toLowerL m, x ≠ ':' ∧ isPySpace x = false := by
  decide

theorem todoMarker_ne_nil : ∀ m ∈ todoMarkers, m ≠ [] := by
  decide

theorem isPySpace_toLower {c : Char} (h : isPySpace c = true) : Char.toLower c = c := by
  rw [isPySpace] at h
  simp only [Bool.or_eq_true, decide_eq_true_eq] at h
  rcases h with ((((h | h) | h) | h) | h) | h <;> subst h <;> decide

theorem not_special_of_toLower_mem_marker {m : List Char} (hm : m ∈ todoMarkers)
    {c : Char} (hc : Char.toLower c ∈ toLowerL m) :
    c ≠ ':' ∧ isPySpace c = false := by
  have hfact := todoMarker_chars m hm (Char.toLower c) hc
  constructor
  · intro hcol
    subst hcol
    exact hfact.1 (by decide)
  · by_cases hsp : isPySpace c = true
    · rw [isPySpace_toLower hsp] at hfact
      rw [hsp] at hfact
      exact absurd hfact.2 (by simp)
    · simpa using hsp

/-! ## C7 -/

/-- Counterexample for C7: on the line `# TODO fix this` (marker not
followed by a colon) the single extracted item has kind
`TODO fix this` — `group(0).split(':')[0]` is the whole matched text
when the line has no colon — which is not one of the six taxonomy
markers, not even case-insensitively. -/
theorem C7_cex :
    (find_todos_in_file c7content (String.toList "f")).map TodoItem.kind =
      [String.toList "TODO fix this"] ∧
    String.toList "TODO fix this" ∉ todoMarkers ∧
    (∀ m ∈ todoMarkers, toLowerL (String.toList "TODO fix this") ≠ toLowerL m) := by
  refine ⟨by decide, by decide, by decide⟩

/-- C7 amended: every extracted TodoItem is produced by one of the six
taxonomy patterns matched case-insensitively, and its kind — the
trimmed prefix of the matched text before the first colon — therefore
begins, case-insensitively, with that marker (it equals the marker for
the conventional `MARKER: text` form, but extends further on
colon-free marker lines); its text is trimmed. -/
theorem C7_amended (content path : List Char) (it : TodoItem)
    (hit : it ∈ find_todos_in_file content path) :
    (∃ m ∈ todoMarkers, toLowerL m <+: toLowerL it.kind) ∧ stripL it.text = it.text := by
  rw [find_todos_in_file] at hit
  rcases List.mem_flatMap.mp hit with ⟨nl, _, hmem⟩
  rcases List.mem_filterMap.mp hmem with ⟨m, hm, hsome⟩
  rcases Option.map_eq_some'.mp hsome with ⟨g0, hsearch, hbuild⟩
  have hkind : it.kind = stripL (g0.takeWhile (fun c => c ≠ ':')) := by
    rw [← hbuild]
  have htext : it.text = stripL (todoGroup1 m g0) := by
    rw [← hbuild]
  have hmark := reSearchTodo_some m hsearch
  rw [markerAt, Bool.and_eq_true] at hmark
  obtain ⟨hprefB, hlenB⟩ := hmark
  have hpref : toLowerL m <+: toLowerL g0 := List.isPrefixOf_iff_prefix.mp hprefB
  have hlen : m.length < g0.length := by simpa using hlenB
  have hmne : m ≠ [] := todoMarker_ne_nil m hm
  have hlow : toLowerL (g0.take m.length) = toLowerL m := by
    have heq := List.prefix_iff_eq_take.mp hpref
    simp only [toLowerL] at heq ⊢
    rw [List.length_map] at heq
    rw [List.map_take]
    exact heq.symm
  have hchars : ∀ c ∈ g0.take m.length, c ≠ ':' ∧ isPySpace c = false := by
    intro c hc
    apply not_special_of_toLower_mem_marker hm
    rw [← hlow]
    exact List.mem_map_of_mem _ hc
  have hpre_ne : g0.take m.length ≠ [] := by
    have : (g0.take m.length).length = m.length := by
      rw [List.length_take]
      omega
    intro hnil
    rw [hnil] at this
    simp at this
    exact hmne (List.eq_nil_of_length_eq_zero this.symm)
  have hstep1 : g0.take m.length <+: g0.takeWhile (fun c => c ≠ ':') :=
    prefix_takeWhile_of_all _ ( List.take_prefix _ _)
      (fun c hc => decide_eq_true (hchars c hc).1)
  have hstep2 : g0.take m.length <+: stripL (g0.takeWhile (fun c => c ≠ ':')) :=
    prefix_stripL_of_none hstep1 hpre_ne (fun c hc => (hchars c hc).2)
  constructor
  · refine ⟨m, hm, ?_⟩
    rw [hkind, ← hlow]
    exact List.IsPrefix.map Char.toLower hstep2
  · rw [htext]
    exact stripL_idem _

/-- Witness for C7 amended: instantiated on the line
`// FIXME: handle null case`, whose extracted item has kind `FIXME` and
text `handle null case`. -/
theorem C7_amended_witness :
    (∃ m ∈ todoMarkers, toLowerL m <+: toLowerL c7wItem.kind) ∧
      stripL c7wItem.text = c7wItem.text :=
  C7_amended c7wContent (String.toList "f") c7wItem (by decide)

end CodeCompass
